import Mathlib

/-!
Verification of the angle library (src/lib.rs): the `Deg` and `Rad` unit
wrappers, their degree/radian conversions, the approximate-equality
comparison, the generic conversion protocol, and the display format.

The Rust code is generic over a floating-point carrier `N : Float +
FromPrimitive + FloatConst`.  We mirror that genericity with a record
`FloatOps` collecting exactly the operations the source uses, and
instantiate it with a concrete carrier `Fp` that models IEEE-754 special
values (NaN, the two infinities, negative zero) while carrying finite
values exactly as rationals.  Arithmetic on finite values is exact —
rounding is not modelled — and special values propagate following
IEEE-754.  The `unwrap` of `N::from_f64(180.)` in the source is modelled
by `Option`: a `none` result is the panic path.
-/

/-- IEEE-754-like floating-point value: finite values carried exactly as
rationals (`finite 0` is positive zero), plus negative zero, the two
infinities and NaN. -/
inductive Fp where
  | finite (q : ℚ)
  | negZero
  | inf
  | negInf
  | nan
  deriving DecidableEq, Repr

/-- IEEE-754 subtraction on the model: NaN propagates, `∞ − ∞` is NaN,
finite subtraction is exact, and `x − x` yields positive zero
(round-to-nearest zero-sign rule). -/
def fsub : Fp → Fp → Fp
  | Fp.nan, _ => Fp.nan
  | _, Fp.nan => Fp.nan
  | Fp.inf, Fp.inf => Fp.nan
  | Fp.negInf, Fp.negInf => Fp.nan
  | Fp.inf, _ => Fp.inf
  | Fp.negInf, _ => Fp.negInf
  | _, Fp.inf => Fp.negInf
  | _, Fp.negInf => Fp.inf
  | Fp.negZero, Fp.negZero => Fp.finite 0
  | Fp.negZero, Fp.finite b => if b = 0 then Fp.negZero else Fp.finite (-b)
  | Fp.finite a, Fp.negZero => Fp.finite a
  | Fp.finite a, Fp.finite b => Fp.finite (a - b)

/-- IEEE-754 addition on the model (used by the generic sum in the tests). -/
def fadd : Fp → Fp → Fp
  | Fp.nan, _ => Fp.nan
  | _, Fp.nan => Fp.nan
  | Fp.inf, Fp.negInf => Fp.nan
  | Fp.negInf, Fp.inf => Fp.nan
  | Fp.inf, _ => Fp.inf
  | _, Fp.inf => Fp.inf
  | Fp.negInf, _ => Fp.negInf
  | _, Fp.negInf => Fp.negInf
  | Fp.negZero, Fp.negZero => Fp.negZero
  | Fp.negZero, Fp.finite b => Fp.finite b
  | Fp.finite a, Fp.negZero => Fp.finite a
  | Fp.finite a, Fp.finite b => Fp.finite (a + b)

/-- IEEE-754 multiplication on the model: NaN propagates, `∞ × 0` is NaN,
signed zeros and infinities follow the sign rule, finite products are
exact. -/
def fmul : Fp → Fp → Fp
  | Fp.nan, _ => Fp.nan
  | _, Fp.nan => Fp.nan
  | Fp.inf, Fp.inf => Fp.inf
  | Fp.inf, Fp.negInf => Fp.negInf
  | Fp.negInf, Fp.inf => Fp.negInf
  | Fp.negInf, Fp.negInf => Fp.inf
  | Fp.inf, Fp.finite b => if b = 0 then Fp.nan else if 0 < b then Fp.inf else Fp.negInf
  | Fp.inf, Fp.negZero => Fp.nan
  | Fp.finite a, Fp.inf => if a = 0 then Fp.nan else if 0 < a then Fp.inf else Fp.negInf
  | Fp.negZero, Fp.inf => Fp.nan
  | Fp.negInf, Fp.finite b => if b = 0 then Fp.nan else if 0 < b then Fp.negInf else Fp.inf
  | Fp.negInf, Fp.negZero => Fp.nan
  | Fp.finite a, Fp.negInf => if a = 0 then Fp.nan else if 0 < a then Fp.negInf else Fp.inf
  | Fp.negZero, Fp.negInf => Fp.nan
  | Fp.negZero, Fp.negZero => Fp.finite 0
  | Fp.negZero, Fp.finite b => if b = 0 then Fp.negZero else if 0 < b then Fp.negZero else Fp.finite 0
  | Fp.finite a, Fp.negZero => if a = 0 then Fp.negZero else if 0 < a then Fp.negZero else Fp.finite 0
  | Fp.finite a, Fp.finite b =>
      if (a = 0 ∧ b < 0) ∨ (a < 0 ∧ b = 0) then Fp.negZero else Fp.finite (a * b)

/-- IEEE-754 division on the model: NaN propagates, `∞ / ∞` and `0 / 0`
are NaN, division by zero yields a signed infinity, finite quotients are
exact. -/
def fdiv : Fp → Fp → Fp
  | Fp.nan, _ => Fp.nan
  | _, Fp.nan => Fp.nan
  | Fp.inf, Fp.inf => Fp.nan
  | Fp.inf, Fp.negInf => Fp.nan
  | Fp.negInf, Fp.inf => Fp.nan
  | Fp.negInf, Fp.negInf => Fp.nan
  | Fp.inf, Fp.finite b => if b < 0 then Fp.negInf else Fp.inf
  | Fp.inf, Fp.negZero => Fp.negInf
  | Fp.negInf, Fp.finite b => if b < 0 then Fp.inf else Fp.negInf
  | Fp.negInf, Fp.negZero => Fp.inf
  | Fp.finite a, Fp.inf => if a < 0 then Fp.negZero else Fp.finite 0
  | Fp.negZero, Fp.inf => Fp.negZero
  | Fp.finite a, Fp.negInf => if a < 0 then Fp.finite 0 else Fp.negZero
  | Fp.negZero, Fp.negInf => Fp.finite 0
  | Fp.finite a, Fp.finite b =>
      if b = 0 then (if a = 0 then Fp.nan else if a < 0 then Fp.negInf else Fp.inf)
      else if a = 0 ∧ b < 0 then Fp.negZero else Fp.finite (a / b)
  | Fp.finite a, Fp.negZero => if a = 0 then Fp.nan else if a < 0 then Fp.inf else Fp.negInf
  | Fp.negZero, Fp.finite b => if b = 0 then Fp.nan else if b < 0 then Fp.finite 0 else Fp.negZero
  | Fp.negZero, Fp.negZero => Fp.nan

/-- IEEE-754 absolute value on the model (`Float::abs`): NaN stays NaN,
both infinities map to `+∞`, `-0` maps to `+0`. -/
def fabs : Fp → Fp
  | Fp.nan => Fp.nan
  | Fp.inf => Fp.inf
  | Fp.negInf => Fp.inf
  | Fp.negZero => Fp.finite 0
  | Fp.finite a => Fp.finite |a|

/-- IEEE-754 strict less-than on the model (Rust `<` on floats): any
comparison involving NaN is false, zeros of both signs are equal. -/
def flt : Fp → Fp → Bool
  | Fp.nan, _ => false
  | _, Fp.nan => false
  | Fp.negInf, Fp.negInf => false
  | Fp.negInf, _ => true
  | _, Fp.negInf => false
  | Fp.inf, _ => false
  | _, Fp.inf => true
  | Fp.finite a, Fp.finite b => decide (a < b)
  | Fp.finite a, Fp.negZero => decide (a < 0)
  | Fp.negZero, Fp.finite b => decide (0 < b)
  | Fp.negZero, Fp.negZero => false

/-- IEEE-754 equality on the model (Rust `==` on floats, the comparison
the derived `PartialEq` performs on the wrapped payload): NaN is not
equal to anything (itself included) and `+0 == -0`. -/
def feq : Fp → Fp → Bool
  | Fp.nan, _ => false
  | _, Fp.nan => false
  | Fp.inf, Fp.inf => true
  | Fp.negInf, Fp.negInf => true
  | Fp.finite a, Fp.finite b => decide (a = b)
  | Fp.finite a, Fp.negZero => decide (a = 0)
  | Fp.negZero, Fp.finite b => decide (b = 0)
  | Fp.negZero, Fp.negZero => true
  | _, _ => false

/-- The subset of the `Float + FromPrimitive + FloatConst` interface that
src/lib.rs uses, mirroring the Rust trait bounds: arithmetic, `abs`, the
`<` comparison, `Float::epsilon()`, `FloatConst::PI()`, and the fallible
`FromPrimitive::from_f64` (its `f64` argument is modelled as an exact
rational; the source only applies it to the literal `180.`, which every
supported precision represents exactly). -/
structure FloatOps (N : Type) where
  sub : N → N → N
  mul : N → N → N
  div : N → N → N
  abs : N → N
  lt : N → N → Bool
  epsilon : N
  pi : N
  from_f64 : ℚ → Option N

/-- `pub struct Deg<N: Float>(pub N)` — an angle in degrees. -/
structure Deg (N : Type) where
  v : N
  deriving DecidableEq, Repr

/-- `pub struct Rad<N: Float>(pub N)` — an angle in radians. -/
structure Rad (N : Type) where
  v : N
  deriving DecidableEq, Repr

/-- `Deg::value` — returns the underlying number. -/
def Deg.value {N : Type} (self : Deg N) : N := self.v

/-- `Deg::to_radians`: `let d = N::from_f64(180.).unwrap(); let pi =
N::PI(); self.0 * (pi / d)`.  The `unwrap` is modelled by `Option`
(`none` = panic). -/
def Deg.to_radians {N : Type} (ops : FloatOps N) (self : Deg N) : Option N :=
  (ops.from_f64 180).map (fun d => ops.mul self.v (ops.div ops.pi d))

/-- `Deg::approx_eq`: `(self.0 - rhs.into().0).abs() < Float::epsilon()`.
The `T: Into<Self>` bound is an explicit conversion function; it is
`Option`-valued because a `Rad → Deg` conversion runs `to_degrees`, whose
`unwrap` may panic. -/
def Deg.approx_eq {N T : Type} (ops : FloatOps N) (into : T → Option (Deg N))
    (self : Deg N) (rhs : T) : Option Bool :=
  (into rhs).map (fun r => ops.lt (ops.abs (ops.sub self.v r.v)) ops.epsilon)

/-- `Rad::value` — returns the underlying number. -/
def Rad.value {N : Type} (self : Rad N) : N := self.v

/-- `Rad::to_degrees`: `let d = N::from_f64(180.).unwrap(); let pi =
N::PI(); self.0 * (d / pi)`. -/
def Rad.to_degrees {N : Type} (ops : FloatOps N) (self : Rad N) : Option N :=
  (ops.from_f64 180).map (fun d => ops.mul self.v (ops.div d ops.pi))

/-- `Rad::approx_eq`: `(self.0 - rhs.into().0).abs() < Float::epsilon()`. -/
def Rad.approx_eq {N T : Type} (ops : FloatOps N) (into : T → Option (Rad N))
    (self : Rad N) (rhs : T) : Option Bool :=
  (into rhs).map (fun r => ops.lt (ops.abs (ops.sub self.v r.v)) ops.epsilon)

/-- `impl Into<Rad<N>> for Deg<N>`: `Rad(self.to_radians())`. -/
def Deg.intoRad {N : Type} (ops : FloatOps N) (self : Deg N) : Option (Rad N) :=
  (self.to_radians ops).map Rad.mk

/-- `impl Into<Deg<N>> for Rad<N>`: `Deg(self.to_degrees())`. -/
def Rad.intoDeg {N : Type} (ops : FloatOps N) (self : Rad N) : Option (Deg N) :=
  (self.to_degrees ops).map Deg.mk

/-- `impl From<N> for Deg<N>`: `Deg(value)` — the identity wrap of a bare
float, interpreted as degrees. -/
def Deg.fromFloat {N : Type} (value : N) : Deg N := ⟨value⟩

/-- `impl From<N> for Rad<N>`: `Rad(value)` — the identity wrap of a bare
float, interpreted as radians. -/
def Rad.fromFloat {N : Type} (value : N) : Rad N := ⟨value⟩

/-- `impl fmt::Display for Deg<N>`: `write!(f, "({})", self.0)`, with
`fmtN` standing for the carrier's own `Display`. -/
def Deg.display {N : Type} (fmtN : N → String) (self : Deg N) : String :=
  "(" ++ fmtN self.v ++ ")"

/-- `impl fmt::Display for Rad<N>`: `write!(f, "({})", self.0)`. -/
def Rad.display {N : Type} (fmtN : N → String) (self : Rad N) : String :=
  "(" ++ fmtN self.v ++ ")"

/-- `std::f32::consts::PI`, exactly: π rounded to binary32. -/
def pi32 : ℚ := 13176795 / 4194304

/-- `f32::EPSILON = 2^-23`, exactly. -/
def eps32 : ℚ := 1 / 8388608

/-- `std::f64::consts::PI`, exactly: π rounded to binary64. -/
def pi64 : ℚ := 884279719003555 / 281474976710656

/-- `f64::EPSILON = 2^-52`, exactly. -/
def eps64 : ℚ := 1 / 4503599627370496

/-- The `inexact_eq` comparison from src/lib.rs:
`(f64::from(lhs) - f64::from(rhs)).abs() < std::f64::EPSILON`, with
`toF64` standing for the `f64::from` conversion of the operand type
(for `f32` operands that conversion is exact, hence the identity on the
model carrier). -/
def inexact_eq {T : Type} (toF64 : T → Fp) (lhs rhs : T) : Bool :=
  flt (fabs (fsub (toF64 lhs) (toF64 rhs))) (Fp.finite eps64)

/-- The model's `FloatOps` at constants `pi` and `eps`.  `from_f64` is
exact (the source only applies it to `180.`, exactly representable at
both supported precisions, so no rounding is lost). -/
def fpOps (pi eps : ℚ) : FloatOps Fp where
  sub := fsub
  mul := fmul
  div := fdiv
  abs := fabs
  lt := flt
  epsilon := Fp.finite eps
  pi := Fp.finite pi
  from_f64 := fun q => some (Fp.finite q)

/-- The `N = f32` instance of the library's trait bounds. -/
def f32Ops : FloatOps Fp := fpOps pi32 eps32

/-- The `N = f64` instance of the library's trait bounds. -/
def f64Ops : FloatOps Fp := fpOps pi64 eps64

/-- The generic sum over `T : Into<Deg<f32>>` from the tests:
`Deg(lhs.into().value() + rhs.into().value())`. -/
def sum_deg {T : Type} (into : T → Deg Fp) (lhs rhs : T) : Deg Fp :=
  ⟨fadd (into lhs).value (into rhs).value⟩

/-- The derived `PartialEq` on `Deg<N>` at the model carrier: field-wise
comparison of the wrapped payload with the carrier's `==` (IEEE equality
for floats). -/
def degEq (a b : Deg Fp) : Bool := feq a.v b.v

/-- The derived `PartialEq` on `Rad<N>` at the model carrier. -/
def radEq (a b : Rad Fp) : Bool := feq a.v b.v

/-- Modelled from the spec: the decimal digits of a fractional part
`0 ≤ q < 1` as printed by the float `Display`; `fuel` bounds the digit
count (the spec's examples terminate after one digit). -/
def fracDigits : Nat → ℚ → String
  | 0, _ => ""
  | fuel + 1, q =>
      if q = 0 then ""
      else
        let q10 := q * 10
        let d : ℤ := ⌊q10⌋
        toString d ++ fracDigits fuel (q10 - (d : ℚ))

/-- Modelled from the spec: the nonnegative part of the float `Display`
format — whole numbers print with no decimal point (`45.0` as `45`),
otherwise integer part, a dot, and the fractional digits (`1.5`). -/
def fmtQpos (q : ℚ) : String :=
  let ip : ℤ := ⌊q⌋
  let fp := q - (ip : ℚ)
  if fp = 0 then toString ip else toString ip ++ "." ++ fracDigits 64 fp

/-- Modelled from the spec: Rust's `Display` for a finite float payload
(shortest terminating decimal; a minus sign for negative values). -/
def fmtQ (q : ℚ) : String :=
  if q < 0 then "-" ++ fmtQpos (-q) else fmtQpos q

/-- Modelled from the spec: Rust's `Display` for the model carrier;
special values print as Rust prints them. -/
def fmtFp : Fp → String
  | Fp.finite q => fmtQ q
  | Fp.negZero => "-0"
  | Fp.inf => "inf"
  | Fp.negInf => "-inf"
  | Fp.nan => "NaN"

theorem fdiv_finite_finite (a b : ℚ) (hb : ¬ b = 0) (h : ¬ (a = 0 ∧ b < 0)) :
    fdiv (Fp.finite a) (Fp.finite b) = Fp.finite (a / b) := by
  simp [fdiv, hb, h]

theorem fmul_finite_finite (a b : ℚ) (h : ¬ ((a = 0 ∧ b < 0) ∨ (a < 0 ∧ b = 0))) :
    fmul (Fp.finite a) (Fp.finite b) = Fp.finite (a * b) := by
  simp [fmul] at h ⊢
  tauto

theorem flt_abs_sub (a b e : ℚ) :
    flt (fabs (fsub (Fp.finite a) (Fp.finite b))) (Fp.finite e) = decide (|a - b| < e) := by
  simp [fsub, fabs, flt]

theorem deg_to_radians_eval (pi eps q : ℚ) (hpi : 0 < pi) :
    Deg.to_radians (fpOps pi eps) ⟨Fp.finite q⟩ = some (Fp.finite (q * (pi / 180))) := by
  have hd : 0 < pi / 180 := by positivity
  have h1 : fdiv (Fp.finite pi) (Fp.finite 180) = Fp.finite (pi / 180) :=
    fdiv_finite_finite pi 180 (by norm_num) (by rintro ⟨-, hlt⟩; norm_num at hlt)
  have h2 : fmul (Fp.finite q) (Fp.finite (pi / 180)) = Fp.finite (q * (pi / 180)) :=
    fmul_finite_finite q (pi / 180)
      (by rintro (⟨-, hlt⟩ | ⟨-, he⟩)
          · exact absurd hlt (not_lt.mpr hd.le)
          · exact absurd he (ne_of_gt hd))
  simp [Deg.to_radians, fpOps, h1, h2]

theorem rad_to_degrees_eval (pi eps q : ℚ) (hpi : 0 < pi) :
    Rad.to_degrees (fpOps pi eps) ⟨Fp.finite q⟩ = some (Fp.finite (q * (180 / pi))) := by
  have hd : 0 < 180 / pi := by positivity
  have h1 : fdiv (Fp.finite 180) (Fp.finite pi) = Fp.finite (180 / pi) :=
    fdiv_finite_finite 180 pi (ne_of_gt hpi) (by rintro ⟨h0, -⟩; norm_num at h0)
  have h2 : fmul (Fp.finite q) (Fp.finite (180 / pi)) = Fp.finite (q * (180 / pi)) :=
    fmul_finite_finite q (180 / pi)
      (by rintro (⟨-, hlt⟩ | ⟨-, he⟩)
          · exact absurd hlt (not_lt.mpr hd.le)
          · exact absurd he (ne_of_gt hd))
  simp [Rad.to_degrees, fpOps, h1, h2]

/-- C1: for every `Deg<N>` value with a finite payload `q`, at both
supported precisions, `to_radians` returns `value × (πN / 180)` with the
precision-N π constant, and the `Into<Rad<N>>` conversion wraps exactly
the `to_radians` result. -/
theorem claim_C1 :
    (∀ q : ℚ, Deg.to_radians f64Ops ⟨Fp.finite q⟩ = some (Fp.finite (q * (pi64 / 180)))
      ∧ Deg.intoRad f64Ops ⟨Fp.finite q⟩ = some ⟨Fp.finite (q * (pi64 / 180))⟩)
  ∧ (∀ q : ℚ, Deg.to_radians f32Ops ⟨Fp.finite q⟩ = some (Fp.finite (q * (pi32 / 180)))
      ∧ Deg.intoRad f32Ops ⟨Fp.finite q⟩ = some ⟨Fp.finite (q * (pi32 / 180))⟩)
  ∧ (∀ (N : Type) (ops : FloatOps N) (d : Deg N),
      Deg.intoRad ops d = (Deg.to_radians ops d).map Rad.mk) := by
  have h64 : (0:ℚ) < pi64 := by norm_num [pi64]
  have h32 : (0:ℚ) < pi32 := by norm_num [pi32]
  refine ⟨fun q => ?_, fun q => ?_, fun N ops d => rfl⟩
  · have h := deg_to_radians_eval pi64 eps64 q h64
    exact ⟨h, by simp only [Deg.intoRad, f64Ops] at h ⊢; rw [h]; rfl⟩
  · have h := deg_to_radians_eval pi32 eps32 q h32
    exact ⟨h, by simp only [Deg.intoRad, f32Ops] at h ⊢; rw [h]; rfl⟩

/-- C2: for every `Rad<N>` value with a finite payload `q`, at both
supported precisions, `to_degrees` returns `value × (180 / πN)` with the
precision-N π constant, and the `Into<Deg<N>>` conversion wraps exactly
the `to_degrees` result. -/
theorem claim_C2 :
    (∀ q : ℚ, Rad.to_degrees f64Ops ⟨Fp.finite q⟩ = some (Fp.finite (q * (180 / pi64)))
      ∧ Rad.intoDeg f64Ops ⟨Fp.finite q⟩ = some ⟨Fp.finite (q * (180 / pi64))⟩)
  ∧ (∀ q : ℚ, Rad.to_degrees f32Ops ⟨Fp.finite q⟩ = some (Fp.finite (q * (180 / pi32)))
      ∧ Rad.intoDeg f32Ops ⟨Fp.finite q⟩ = some ⟨Fp.finite (q * (180 / pi32))⟩)
  ∧ (∀ (N : Type) (ops : FloatOps N) (r : Rad N),
      Rad.intoDeg ops r = (Rad.to_degrees ops r).map Deg.mk) := by
  have h64 : (0:ℚ) < pi64 := by norm_num [pi64]
  have h32 : (0:ℚ) < pi32 := by norm_num [pi32]
  refine ⟨fun q => ?_, fun q => ?_, fun N ops r => rfl⟩
  · have h := rad_to_degrees_eval pi64 eps64 q h64
    exact ⟨h, by simp only [Rad.intoDeg, f64Ops] at h ⊢; rw [h]; rfl⟩
  · have h := rad_to_degrees_eval pi32 eps32 q h32
    exact ⟨h, by simp only [Rad.intoDeg, f32Ops] at h ⊢; rw [h]; rfl⟩

/-- C7: every operation is total over the supported precisions: the
internal `N::from_f64(180.)` always succeeds at both precisions, so the
conversions (`to_radians`, `to_degrees`, the `Into` protocol, and
`approx_eq` with a cross-unit operand) never take the panic path, for
every payload including NaN and the infinities. -/
theorem claim_C7 :
    f64Ops.from_f64 180 = some (Fp.finite 180)
  ∧ f32Ops.from_f64 180 = some (Fp.finite 180)
  ∧ (∀ d : Deg Fp, (Deg.to_radians f64Ops d).isSome = true
      ∧ (Deg.to_radians f32Ops d).isSome = true
      ∧ (Deg.intoRad f64Ops d).isSome = true
      ∧ (Deg.intoRad f32Ops d).isSome = true)
  ∧ (∀ r : Rad Fp, (Rad.to_degrees f64Ops r).isSome = true
      ∧ (Rad.to_degrees f32Ops r).isSome = true
      ∧ (Rad.intoDeg f64Ops r).isSome = true
      ∧ (Rad.intoDeg f32Ops r).isSome = true)
  ∧ (∀ (d : Deg Fp) (r : Rad Fp),
      (Deg.approx_eq f64Ops (Rad.intoDeg f64Ops) d r).isSome = true
      ∧ (Rad.approx_eq f64Ops (Deg.intoRad f64Ops) r d).isSome = true) :=
  ⟨rfl, rfl, fun _ => ⟨rfl, rfl, rfl, rfl⟩, fun _ => ⟨rfl, rfl, rfl, rfl⟩,
   fun _ _ => ⟨rfl, rfl⟩⟩

theorem approx_eq_some_deg {T : Type} (pi eps q r : ℚ) (into : T → Option (Deg Fp))
    (t : T) (h : into t = some ⟨Fp.finite r⟩) :
    Deg.approx_eq (fpOps pi eps) into ⟨Fp.finite q⟩ t = some (decide (|q - r| < eps)) := by
  unfold Deg.approx_eq
  rw [h]
  show some (flt (fabs (fsub (Fp.finite q) (Fp.finite r))) (Fp.finite eps)) = _
  rw [flt_abs_sub]

theorem approx_eq_some_rad {T : Type} (pi eps q r : ℚ) (into : T → Option (Rad Fp))
    (t : T) (h : into t = some ⟨Fp.finite r⟩) :
    Rad.approx_eq (fpOps pi eps) into ⟨Fp.finite q⟩ t = some (decide (|q - r| < eps)) := by
  unfold Rad.approx_eq
  rw [h]
  show some (flt (fabs (fsub (Fp.finite q) (Fp.finite r))) (Fp.finite eps)) = _
  rw [flt_abs_sub]

theorem rad_intoDeg_eval (pi eps s : ℚ) (hpi : 0 < pi) :
    Rad.intoDeg (fpOps pi eps) ⟨Fp.finite s⟩ = some ⟨Fp.finite (s * (180 / pi))⟩ := by
  simp only [Rad.intoDeg]
  rw [rad_to_degrees_eval pi eps s hpi]
  rfl

theorem deg_intoRad_eval (pi eps s : ℚ) (hpi : 0 < pi) :
    Deg.intoRad (fpOps pi eps) ⟨Fp.finite s⟩ = some ⟨Fp.finite (s * (pi / 180))⟩ := by
  simp only [Deg.intoRad]
  rw [deg_to_radians_eval pi eps s hpi]
  rfl

/-- C4: `approx_eq` first converts the right operand into the same unit
and precision, then returns true exactly when the absolute payload
difference is strictly below the machine epsilon of precision N (an
absolute bound): shown at both precisions for a bare-float right operand
and at double precision for a cross-unit right operand, whose converted
payload enters the comparison. -/
theorem claim_C4 :
    (∀ q r : ℚ,
      (Deg.approx_eq f64Ops (fun x : Fp => some (Deg.fromFloat x))
          ⟨Fp.finite q⟩ (Fp.finite r) = some true ↔ |q - r| < eps64)
      ∧ (Deg.approx_eq f32Ops (fun x : Fp => some (Deg.fromFloat x))
          ⟨Fp.finite q⟩ (Fp.finite r) = some true ↔ |q - r| < eps32)
      ∧ (Rad.approx_eq f64Ops (fun x : Fp => some (Rad.fromFloat x))
          ⟨Fp.finite q⟩ (Fp.finite r) = some true ↔ |q - r| < eps64)
      ∧ (Rad.approx_eq f32Ops (fun x : Fp => some (Rad.fromFloat x))
          ⟨Fp.finite q⟩ (Fp.finite r) = some true ↔ |q - r| < eps32))
  ∧ (∀ q s : ℚ,
      (Deg.approx_eq f64Ops (Rad.intoDeg f64Ops) ⟨Fp.finite q⟩ ⟨Fp.finite s⟩
          = some true ↔ |q - s * (180 / pi64)| < eps64)
      ∧ (Rad.approx_eq f64Ops (Deg.intoRad f64Ops) ⟨Fp.finite q⟩ ⟨Fp.finite s⟩
          = some true ↔ |q - s * (pi64 / 180)| < eps64)) := by
  have h64 : (0:ℚ) < pi64 := by norm_num [pi64]
  refine ⟨fun q r => ⟨?_, ?_, ?_, ?_⟩, fun q s => ⟨?_, ?_⟩⟩
  · rw [show f64Ops = fpOps pi64 eps64 from rfl,
      approx_eq_some_deg pi64 eps64 q r (fun x : Fp => some (Deg.fromFloat x)) (Fp.finite r) rfl]
    simp
  · rw [show f32Ops = fpOps pi32 eps32 from rfl,
      approx_eq_some_deg pi32 eps32 q r (fun x : Fp => some (Deg.fromFloat x)) (Fp.finite r) rfl]
    simp
  · rw [show f64Ops = fpOps pi64 eps64 from rfl,
      approx_eq_some_rad pi64 eps64 q r (fun x : Fp => some (Rad.fromFloat x)) (Fp.finite r) rfl]
    simp
  · rw [show f32Ops = fpOps pi32 eps32 from rfl,
      approx_eq_some_rad pi32 eps32 q r (fun x : Fp => some (Rad.fromFloat x)) (Fp.finite r) rfl]
    simp
  · rw [show f64Ops = fpOps pi64 eps64 from rfl,
      approx_eq_some_deg pi64 eps64 q (s * (180 / pi64)) (Rad.intoDeg (fpOps pi64 eps64))
        ⟨Fp.finite s⟩ (rad_intoDeg_eval pi64 eps64 s h64)]
    simp
  · rw [show f64Ops = fpOps pi64 eps64 from rfl,
      approx_eq_some_rad pi64 eps64 q (s * (pi64 / 180)) (Deg.intoRad (fpOps pi64 eps64))
        ⟨Fp.finite s⟩ (deg_intoRad_eval pi64 eps64 s h64)]
    simp

theorem fadd_45_75 : fadd (Fp.finite 45) (Fp.finite 75) = Fp.finite 120 := by
  rw [show fadd (Fp.finite 45) (Fp.finite 75) = Fp.finite (45 + 75) from rfl]
  norm_num

/-- C5: the `From<N>` conversions are identity wraps of the bare float,
so a function generic over "convertible into `Deg`" treats a bare number
and the explicit wrapper identically: the test's generic sum gives
`Deg(120)` on bare `45` and `75` exactly as on `Deg(45)` and `Deg(75)`. -/
theorem claim_C5 :
    (∀ x : Fp, Deg.fromFloat x = ⟨x⟩ ∧ Rad.fromFloat x = ⟨x⟩
      ∧ (Deg.fromFloat x).value = x ∧ (Rad.fromFloat x).value = x)
  ∧ sum_deg (fun x : Fp => Deg.fromFloat x) (Fp.finite 45) (Fp.finite 75)
      = Deg.fromFloat (Fp.finite 120)
  ∧ sum_deg (fun d : Deg Fp => d) ⟨Fp.finite 45⟩ ⟨Fp.finite 75⟩ = ⟨Fp.finite 120⟩
  ∧ sum_deg (fun x : Fp => Deg.fromFloat x) (Fp.finite 45) (Fp.finite 75)
      = sum_deg (fun d : Deg Fp => d) ⟨Fp.finite 45⟩ ⟨Fp.finite 75⟩ := by
  refine ⟨fun x => ⟨rfl, rfl, rfl, rfl⟩, ?_, ?_, rfl⟩ <;>
    (show Deg.mk (fadd (Fp.finite 45) (Fp.finite 75)) = _
     rw [fadd_45_75]
     try rfl)

theorem approx_eq_refl_deg (pi eps q : ℚ) (he : 0 < eps) :
    Deg.approx_eq (fpOps pi eps) (fun d => some d) ⟨Fp.finite q⟩ ⟨Fp.finite q⟩
      = some true := by
  rw [approx_eq_some_deg pi eps q q (fun d => some d) ⟨Fp.finite q⟩ rfl]
  simp [he]

theorem approx_eq_refl_rad (pi eps q : ℚ) (he : 0 < eps) :
    Rad.approx_eq (fpOps pi eps) (fun r => some r) ⟨Fp.finite q⟩ ⟨Fp.finite q⟩
      = some true := by
  rw [approx_eq_some_rad pi eps q q (fun r => some r) ⟨Fp.finite q⟩ rfl]
  simp [he]

/-- C6: `approx_eq` is reflexive on finite payloads at both precisions
and for both units, and returns false whenever either operand's payload
is NaN (NaN against itself included). -/
theorem claim_C6 :
    (∀ q : ℚ,
      Deg.approx_eq f64Ops (fun d => some d) ⟨Fp.finite q⟩ ⟨Fp.finite q⟩ = some true
      ∧ Deg.approx_eq f32Ops (fun d => some d) ⟨Fp.finite q⟩ ⟨Fp.finite q⟩ = some true
      ∧ Rad.approx_eq f64Ops (fun r => some r) ⟨Fp.finite q⟩ ⟨Fp.finite q⟩ = some true
      ∧ Rad.approx_eq f32Ops (fun r => some r) ⟨Fp.finite q⟩ ⟨Fp.finite q⟩ = some true)
  ∧ (∀ a : Fp,
      Deg.approx_eq f64Ops (fun d => some d) ⟨Fp.nan⟩ ⟨a⟩ = some false
      ∧ Deg.approx_eq f64Ops (fun d => some d) ⟨a⟩ ⟨Fp.nan⟩ = some false
      ∧ Deg.approx_eq f32Ops (fun d => some d) ⟨Fp.nan⟩ ⟨a⟩ = some false
      ∧ Deg.approx_eq f32Ops (fun d => some d) ⟨a⟩ ⟨Fp.nan⟩ = some false
      ∧ Rad.approx_eq f64Ops (fun r => some r) ⟨Fp.nan⟩ ⟨a⟩ = some false
      ∧ Rad.approx_eq f64Ops (fun r => some r) ⟨a⟩ ⟨Fp.nan⟩ = some false
      ∧ Rad.approx_eq f32Ops (fun r => some r) ⟨Fp.nan⟩ ⟨a⟩ = some false
      ∧ Rad.approx_eq f32Ops (fun r => some r) ⟨a⟩ ⟨Fp.nan⟩ = some false) := by
  have he64 : (0:ℚ) < eps64 := by norm_num [eps64]
  have he32 : (0:ℚ) < eps32 := by norm_num [eps32]
  refine ⟨fun q => ⟨?_, ?_, ?_, ?_⟩, fun a => ?_⟩
  · exact approx_eq_refl_deg pi64 eps64 q he64
  · exact approx_eq_refl_deg pi32 eps32 q he32
  · exact approx_eq_refl_rad pi64 eps64 q he64
  · exact approx_eq_refl_rad pi32 eps32 q he32
  · cases a <;>
      simp [Deg.approx_eq, Rad.approx_eq, f64Ops, f32Ops, fpOps, fsub, fabs, flt]

/-- C8: the standalone `inexact_eq` helper compares arbitrary operands
through their `f64::from` conversion (the identity embedding for values
already at most double precision) and returns true exactly when the
absolute difference of the converted values is strictly below
double-precision machine epsilon. -/
theorem claim_C8 :
    (∀ a b : ℚ, (inexact_eq (fun q : ℚ => Fp.finite q) a b = true) ↔ |a - b| < eps64)
  ∧ (∀ a b : ℚ,
      (inexact_eq (fun x : Fp => x) (Fp.finite a) (Fp.finite b) = true) ↔ |a - b| < eps64)
  ∧ (∀ (T : Type) (toF64 : T → Fp) (x y : T),
      inexact_eq toF64 x y = flt (fabs (fsub (toF64 x) (toF64 y))) (Fp.finite eps64)) := by
  refine ⟨fun a b => ?_, fun a b => ?_, fun T f x y => rfl⟩ <;>
    (show flt (fabs (fsub (Fp.finite a) (Fp.finite b))) (Fp.finite eps64) = true ↔ _
     rw [flt_abs_sub]
     simp)

theorem fmtQ_45 : fmtQ 45 = "45" := by
  have h0 : ¬ ((45:ℚ) < 0) := by norm_num
  have hf : ⌊(45:ℚ)⌋ = 45 := by norm_num
  simp only [fmtQ]
  rw [if_neg h0]
  simp only [fmtQpos]
  rw [hf, if_pos (by norm_num : (45:ℚ) - ((45:ℤ) : ℚ) = 0)]
  rfl

theorem fracDigits_succ (fuel : Nat) (q : ℚ) :
    fracDigits (fuel + 1) q =
      if q = 0 then ""
      else toString ⌊q * 10⌋ ++ fracDigits fuel (q * 10 - ((⌊q * 10⌋ : ℤ) : ℚ)) := rfl

theorem fracDigits_half : fracDigits 64 (1/2 : ℚ) = "5" := by
  have h5 : ⌊(1/2 : ℚ) * 10⌋ = 5 := by norm_num
  rw [show (64:Nat) = 63 + 1 from rfl, fracDigits_succ,
    if_neg (by norm_num : ¬ ((1/2 : ℚ) = 0)), h5,
    show (1/2 : ℚ) * 10 - ((5:ℤ) : ℚ) = 0 by norm_num,
    show (63:Nat) = 62 + 1 from rfl, fracDigits_succ, if_pos rfl]
  rfl

theorem fmtQ_three_halves : fmtQ (3/2) = "1.5" := by
  have h0 : ¬ ((3/2 : ℚ) < 0) := by norm_num
  have hf : ⌊(3/2 : ℚ)⌋ = 1 := by norm_num
  simp only [fmtQ]
  rw [if_neg h0]
  simp only [fmtQpos]
  rw [hf, if_neg (by norm_num : ¬ ((3/2 : ℚ) - ((1:ℤ) : ℚ) = 0)),
    show (3/2 : ℚ) - ((1:ℤ) : ℚ) = 1/2 by norm_num, fracDigits_half]
  rfl

/-- C9: `Display` renders the underlying numeric value wrapped in
parentheses with no unit suffix: `Deg(45)` displays as `(45)` and
`Rad(1.5)` as `(1.5)`. -/
theorem claim_C9 :
    Deg.display fmtFp ⟨Fp.finite 45⟩ = "(45)"
  ∧ Rad.display fmtFp ⟨Fp.finite (3/2)⟩ = "(1.5)"
  ∧ (∀ x : Fp, Deg.display fmtFp ⟨x⟩ = "(" ++ fmtFp x ++ ")"
      ∧ Rad.display fmtFp ⟨x⟩ = "(" ++ fmtFp x ++ ")") := by
  refine ⟨?_, ?_, fun x => ⟨rfl, rfl⟩⟩
  · show "(" ++ fmtQ 45 ++ ")" = "(45)"
    rw [fmtQ_45]
    rfl
  · show "(" ++ fmtQ (3/2) ++ ")" = "(1.5)"
    rw [fmtQ_three_halves]
    rfl

/-- C10: the derived exact equality on `Deg` and `Rad` is IEEE-754
equality of the wrapped payloads: equal rational payloads compare equal,
NaN is not equal to itself, and positive zero equals negative zero. -/
theorem claim_C10 :
    (∀ q r : ℚ, degEq ⟨Fp.finite q⟩ ⟨Fp.finite r⟩ = decide (q = r)
      ∧ radEq ⟨Fp.finite q⟩ ⟨Fp.finite r⟩ = decide (q = r))
  ∧ degEq ⟨Fp.nan⟩ ⟨Fp.nan⟩ = false
  ∧ radEq ⟨Fp.nan⟩ ⟨Fp.nan⟩ = false
  ∧ degEq ⟨Fp.finite 0⟩ ⟨Fp.negZero⟩ = true
  ∧ radEq ⟨Fp.finite 0⟩ ⟨Fp.negZero⟩ = true
  ∧ (∀ a b : Fp, degEq ⟨a⟩ ⟨b⟩ = feq a b ∧ radEq ⟨a⟩ ⟨b⟩ = feq a b) := by
  refine ⟨fun q r => ⟨rfl, rfl⟩, rfl, rfl, ?_, ?_, fun a b => ⟨rfl, rfl⟩⟩ <;>
    (show decide ((0:ℚ) = 0) = true
     simp)
